import Mathlib

/-!
Verification of the PaperIQ text-analysis core (backend_main.py).

Text is modelled as `List Char`; Python floats are modelled as rationals.
Python character classes are modelled on their ASCII fragment: `isSpace`
matches the six ASCII whitespace characters of Python `str.strip` and the
regex class backslash-s, and `isWordChar` matches the ASCII fragment of the
regex class backslash-w.  The TextBlob sentiment call is modelled as an
abstract oracle parameter, as the spec treats it as an external capability.
-/

namespace PaperIQ

/-- ASCII whitespace recognised by Python string trimming and the regex
whitespace class. -/
def isSpace (c : Char) : Bool :=
  c = ' ' || c = '\t' || c = '\n' || c = '\r' || c = '\x0b' || c = '\x0c'

/-- Sentence-ending punctuation from the lookbehind class in
`sentence_split` (line 12). -/
def isSentEnd (c : Char) : Bool := c = '.' || c = '!' || c = '?'

/-- Word characters: letters, digits and underscore (ASCII fragment of the
regex word class). -/
def isWordChar (c : Char) : Bool := c.isAlphanum || c = '_'

/-- Characters admitted inside a token run: word characters and the
apostrophe (the character class of `tokenize_words`, line 17). -/
def isTokChar (c : Char) : Bool := isWordChar c || c = '\''

/-- Python `str.strip`: drop leading and trailing whitespace. -/
def pstrip (l : List Char) : List Char :=
  ((l.dropWhile isSpace).reverse.dropWhile isSpace).reverse

/-- Python `s.replace` of the literal two-character backslash-n sequence by a
single space, scanning left to right over non-overlapping occurrences
(line 13). -/
def replBN : List Char → List Char
  | '\\' :: 'n' :: rest => ' ' :: replBN rest
  | c :: rest => c :: replBN rest
  | [] => []

/-- Walk the text accumulating the current segment in reverse; a whitespace
character immediately after sentence-ending punctuation starts a delimiter,
exactly the split pattern of line 12 (a maximal whitespace run whose first
character follows `.`, `!` or `?`).  The third argument is `none` while
consuming a delimiter run and carries the current segment otherwise. -/
def splitGo : List Char → Char → Option (List Char) → List (List Char)
  | [], _, none => [[]]
  | [], _, some cur => [cur.reverse]
  | c :: rest, _, none =>
    if isSpace c then splitGo rest c none
    else splitGo rest c (some [c])
  | c :: rest, prev, some cur =>
    if isSpace c && isSentEnd prev then
      cur.reverse :: splitGo rest c none
    else
      splitGo rest c (some (c :: cur))

/-- Lines 11 to 14: strip the text, split it at whitespace following `.`,
`!` or `?`, keep the candidates whose original text trims nonempty, and map
each kept candidate through backslash-n collapsing and trimming. -/
def sentence_split (text : List Char) : List (List Char) :=
  let sentences := splitGo (pstrip text) ' ' (some [])
  (sentences.filter (fun s => !(pstrip s).isEmpty)).map (fun s => pstrip (replBN s))

/-- Strip leading and trailing apostrophes from a token run: the word
boundaries of the token regex admit neither a leading nor a trailing
apostrophe, since the apostrophe is not a word character. -/
def stripApos (l : List Char) : List Char :=
  ((l.dropWhile (· = '\'')).reverse.dropWhile (· = '\'')).reverse

/-- Close the current (reversed) token run: emit it stripped of outer
apostrophes when something remains, nothing otherwise. -/
def finishRun (acc : List Char) : List (List Char) :=
  let r := stripApos acc.reverse
  if r.isEmpty then [] else [r]

/-- Scan for maximal runs of token characters, closing each run through
`finishRun`. -/
def tokensGo : List Char → List Char → List (List Char)
  | [], acc => finishRun acc
  | c :: rest, acc =>
    if isTokChar c then tokensGo rest (c :: acc)
    else finishRun acc ++ tokensGo rest []

/-- Lines 16 to 18: lower-case the text and extract the word tokens matched
by the boundary-delimited token regex. -/
def tokenize_words (text : List Char) : List (List Char) :=
  tokensGo (text.map Char.toLower) []

/-- Lines 20 to 23: distinct words over total words, 0 on no words. -/
def type_token_ratio (words : List (List Char)) : ℚ :=
  if words.isEmpty then 0 else (words.dedup.length : ℚ) / words.length

/-- Lines 25 to 28: mean character length of the words, 0 on no words. -/
def avg_word_length (words : List (List Char)) : ℚ :=
  if words.isEmpty then 0
  else (words.map (fun w => (w.length : ℚ))).sum / words.length

/-- Lines 30 to 34: mean per-sentence word-token count, 0 on no
sentences. -/
def avg_sentence_length (sentences : List (List Char)) : ℚ :=
  if sentences.isEmpty then 0
  else (sentences.map (fun s => ((tokenize_words s).length : ℚ))).sum / sentences.length

/-- Lines 36 to 40: fraction of words longer than six characters, 0 on no
words. -/
def lexical_sophistication (words : List (List Char)) : ℚ :=
  if words.isEmpty then 0
  else (words.countP (fun w => decide (6 < w.length)) : ℚ) / words.length

/-- Lines 42 to 49: one minus the ratio of the population variance of the
per-sentence word counts to the squared successor of their mean, clamped
below at 0; 0 on no sentences. -/
def coherence_score (sentences : List (List Char)) : ℚ :=
  if sentences.isEmpty then 0
  else
    let lens := sentences.map (fun s => ((tokenize_words s).length : ℚ))
    let mean : ℚ := lens.sum / lens.length
    let var : ℚ := (lens.map (fun l => (l - mean) ^ 2)).sum / lens.length
    max 0 (1 - var / ((mean + 1) ^ 2 : ℚ))

/-- The fixed causal-marker set of lines 52 and 108. -/
def causalMarkers : List (List Char) :=
  ["because".toList, "therefore".toList, "thus".toList, "hence".toList,
   "consequently".toList, "so".toList]

/-- The trailing word boundary: the match may not be followed by a word
character. -/
def boundaryAfter (s : List Char) : Bool :=
  match s with
  | [] => true
  | c :: _ => !isWordChar c

/-- The word matches at the head of the remaining text and is followed by a
word boundary. -/
def matchesWordAt : List Char → List Char → Bool
  | [], s => boundaryAfter s
  | _ :: _, [] => false
  | c :: w, d :: s => c = d && matchesWordAt w s

/-- Scan the text for a whole-word occurrence of one of the given words; the
Boolean argument records whether the previous position admits a word
boundary (start of text, or a non-word character). -/
def searchWord (ws : List (List Char)) : Bool → List Char → Bool
  | _, [] => false
  | prevOk, c :: rest =>
    (prevOk && ws.any (fun w => matchesWordAt w (c :: rest)))
      || searchWord ws (!isWordChar c) rest

/-- The regex search of lines 52 and 108: a whole-word, case-insensitive
occurrence of a causal marker in the sentence. -/
def hasCausalMarker (s : List Char) : Bool :=
  searchWord causalMarkers true (s.map Char.toLower)

/-- The fixed modal-hedge set of line 53. -/
def modalWords : List (List Char) :=
  ["may".toList, "might".toList, "could".toList, "should".toList, "would".toList]

/-- Lines 51 to 55: causal-marker sentence count against modal-hedge word
count, recentred at one half and clamped into the unit interval. -/
def reasoning_proxy (sentences words : List (List Char)) : ℚ :=
  let causal : ℕ := sentences.countP hasCausalMarker
  let modal : ℕ := words.countP (fun w => decide (w ∈ modalWords))
  let score : ℚ := (causal : ℚ) / (sentences.length + 1) - (modal : ℚ) / (words.length + 1)
  max 0 (min 1 (1/2 + score))

/-- The eight sentiment-free fields of the feature mapping built by
`compute_features` (lines 61 to 68). -/
structure FeatureVector where
  word_count : ℕ
  sentence_count : ℕ
  avg_sentence_len : ℚ
  avg_word_len : ℚ
  ttr : ℚ
  lex_soph : ℚ
  coherence : ℚ
  reasoning_proxy : ℚ
deriving DecidableEq, Repr

/-- Lines 57 to 68 of `compute_features`: the pure part computed before any
sentiment call, returning the feature vector with the sentence and word
sequences. -/
def compute_features_core (text : List Char) :
    FeatureVector × List (List Char) × List (List Char) :=
  let sentences := sentence_split text
  let words := tokenize_words text
  (⟨words.length, sentences.length, avg_sentence_length sentences,
    avg_word_length words, type_token_ratio words, lexical_sophistication words,
    coherence_score sentences, reasoning_proxy sentences words⟩,
   sentences, words)

/-- Python `round(q, 2)`, modelled over the rationals. -/
def round2 (q : ℚ) : ℚ := (round (q * 100) : ℚ) / 100

/-- The four scores returned by `score_paper` (lines 92 to 97). -/
structure ScoreSet where
  language : ℚ
  coherence : ℚ
  reasoning : ℚ
  composite : ℚ
deriving DecidableEq, Repr

/-- The local variable `lang` of line 88: the weighted sum of the three
clamped language components. -/
def langRaw (f : FeatureVector) : ℚ :=
  100 * (2/10 * min 1 (f.ttr * (3/2)) + 3/10 * min 1 (f.lex_soph * 3)
    + 5/10 * min 1 (f.avg_word_len / 5))

/-- The local variable `coh` of line 89. -/
def cohRaw (f : FeatureVector) : ℚ := 100 * f.coherence

/-- The local variable `reason` of line 90. -/
def reasonRaw (f : FeatureVector) : ℚ := 100 * f.reasoning_proxy

/-- Lines 87 to 97: the language, coherence and reasoning sub-scores and the
composite, each rounded to two decimal places (the composite from the
unrounded sub-scores). -/
def score_paper (f : FeatureVector) : ScoreSet :=
  ⟨round2 (langRaw f), round2 (cohRaw f), round2 (reasonRaw f),
   round2 (4/10 * langRaw f + 3/10 * cohRaw f + 3/10 * reasonRaw f)⟩

/-- The penalty assigned to one sentence by lines 101 to 113: 0 for a
sentence with no word tokens, otherwise the weighted sum of the length
flag, the local type-token deficit and the missing-causal-marker flag. -/
def contribPenalty (f : FeatureVector) (s : List Char) : ℚ :=
  let words := tokenize_words s
  if words.isEmpty then 0
  else
    let ttr : ℚ := (words.dedup.length : ℚ) / words.length
    let long : ℚ := if max 40 (f.avg_sentence_len * 2) < (words.length : ℚ) then 1 else 0
    let causal : ℚ := if hasCausalMarker s then 1 else 0
    long * (12/10) + (1 - ttr) * 1 + (1 - causal) * (5/10)

/-- The comparison used by the descending stable sort of line 114. -/
def penaltyLE (a b : (List Char) × ℚ) : Bool := decide (b.2 ≤ a.2)

/-- Lines 99 to 115: pair each sentence with its penalty, then sort the
pairs by penalty in descending order with a stable sort, as the Python list
sort with a key and the reverse flag does. -/
def sentence_contributions (sentences : List (List Char)) (f : FeatureVector) :
    List ((List Char) × ℚ) :=
  (sentences.map (fun s => (s, contribPenalty f s))).mergeSort penaltyLE

/-- The per-sentence sentiment record of lines 76 to 83 and 121 to 124. -/
structure SentimentInfo where
  text : List Char
  polarity : ℚ
  subjectivity : ℚ
deriving DecidableEq, Repr

/-- The two failure modes of the `analyze` entry point: the explicit
too-short rejection of line 139, and a propagated failure of the external
sentiment capability (the TextBlob calls of lines 71 and 78 carry no
handler, so such a failure aborts the request). -/
inductive AnalyzeError where
  | tooShort
  | sentimentUnavailable
deriving DecidableEq, Repr

/-- The `AnalyzeResponse` of lines 126 to 133; the diagnostics dictionary is
the feature mapping, whose sentiment entries are carried here in the two
document-level sentiment fields. -/
structure AnalyzeResponse where
  composite : ℚ
  language : ℚ
  coherence : ℚ
  reasoning : ℚ
  diagnostics : FeatureVector
  sentiment_polarity : ℚ
  sentiment_subjectivity : ℚ
  top_flagged_sentences : List (List Char)
  sentiment_analysis : List SentimentInfo
deriving DecidableEq, Repr

/-- The per-sentence sentiment loop of lines 76 to 83: call the oracle on
each sentence in order, stopping at the first failure. -/
def sentenceSentiments (oracle : List Char → Option (ℚ × ℚ)) :
    List (List Char) → Option (List SentimentInfo)
  | [] => some []
  | s :: rest =>
    match oracle s with
    | none => none
    | some pq =>
      match sentenceSentiments oracle rest with
      | none => none
      | some sis => some (SentimentInfo.mk s pq.1 pq.2 :: sis)

/-- Lines 57 to 85 of `compute_features`, with the external sentiment
capability abstracted as an oracle that may fail: the oracle is called once
on the whole document, then once per sentence in order, and the first
failure aborts the computation. -/
def compute_features (oracle : List Char → Option (ℚ × ℚ)) (text : List Char) :
    Option (FeatureVector × ℚ × ℚ × List (List Char) × List (List Char) ×
      List SentimentInfo) :=
  match oracle text with
  | none => none
  | some psub =>
    match sentenceSentiments oracle (sentence_split text) with
    | none => none
    | some sis =>
      some ((compute_features_core text).1, psub.1, psub.2,
        sentence_split text, tokenize_words text, sis)

/-- Lines 135 to 163: reject trimmed input shorter than 20 characters,
compute features and scores, rank sentences, keep the top five, and
assemble the response; a sentiment failure aborts the request. -/
def analyze (oracle : List Char → Option (ℚ × ℚ)) (text : List Char) :
    Except AnalyzeError AnalyzeResponse :=
  if (pstrip text).length < 20 then .error .tooShort
  else
    match compute_features oracle text with
    | none => .error .sentimentUnavailable
    | some (f, p, sub, sentences, _words, sis) =>
      let scores := score_paper f
      let contribs := sentence_contributions sentences f
      .ok ⟨scores.composite, scores.language, scores.coherence, scores.reasoning,
        f, p, sub, (contribs.take 5).map Prod.fst, sis⟩

/-- The spans handed to the sentiment oracle by the per-sentence loop of
lines 77 to 83, in order, stopping at the first failure. -/
def sentimentCalls (oracle : List Char → Option (ℚ × ℚ)) :
    List (List Char) → List (List Char)
  | [] => []
  | s :: rest => s :: (if (oracle s).isSome then sentimentCalls oracle rest else [])

/-- All spans handed to the sentiment oracle during one `analyze` request:
the whole document first, then the sentences in order up to the first
failure. -/
def analyzeCalls (oracle : List Char → Option (ℚ × ℚ)) (text : List Char) :
    List (List Char) :=
  if (pstrip text).length < 20 then []
  else
    text :: (if (oracle text).isSome then sentimentCalls oracle (sentence_split text)
      else [])

/-! ### Projections of the feature computation -/

@[simp] lemma cfc_sentences (t : List Char) :
    (compute_features_core t).2.1 = sentence_split t := rfl

@[simp] lemma cfc_words (t : List Char) :
    (compute_features_core t).2.2 = tokenize_words t := rfl

@[simp] lemma cfc_word_count (t : List Char) :
    (compute_features_core t).1.word_count = (tokenize_words t).length := rfl

@[simp] lemma cfc_sentence_count (t : List Char) :
    (compute_features_core t).1.sentence_count = (sentence_split t).length := rfl

@[simp] lemma cfc_avg_sentence_len (t : List Char) :
    (compute_features_core t).1.avg_sentence_len
      = avg_sentence_length (sentence_split t) := rfl

@[simp] lemma cfc_avg_word_len (t : List Char) :
    (compute_features_core t).1.avg_word_len = avg_word_length (tokenize_words t) := rfl

@[simp] lemma cfc_ttr (t : List Char) :
    (compute_features_core t).1.ttr = type_token_ratio (tokenize_words t) := rfl

@[simp] lemma cfc_lex_soph (t : List Char) :
    (compute_features_core t).1.lex_soph
      = lexical_sophistication (tokenize_words t) := rfl

@[simp] lemma cfc_coherence (t : List Char) :
    (compute_features_core t).1.coherence = coherence_score (sentence_split t) := rfl

@[simp] lemma cfc_reasoning (t : List Char) :
    (compute_features_core t).1.reasoning_proxy
      = reasoning_proxy (sentence_split t) (tokenize_words t) := rfl

/-! ### Range bounds on the feature fields -/

lemma qlength_pos {α : Type} {l : List α} (h : ¬l.isEmpty = true) :
    0 < (l.length : ℚ) := by
  cases l with
  | nil => simp at h
  | cons a t => exact_mod_cast Nat.succ_pos t.length

lemma type_token_ratio_nonneg (ws : List (List Char)) : 0 ≤ type_token_ratio ws := by
  unfold type_token_ratio
  split
  · exact le_refl 0
  · exact div_nonneg (Nat.cast_nonneg _) (Nat.cast_nonneg _)

lemma type_token_ratio_le_one (ws : List (List Char)) : type_token_ratio ws ≤ 1 := by
  unfold type_token_ratio
  split
  · norm_num
  · rename_i h
    refine (div_le_one (qlength_pos h)).mpr ?_
    exact_mod_cast (List.dedup_sublist ws).length_le

lemma type_token_ratio_pos {ws : List (List Char)} (h : ¬ws.isEmpty = true) :
    0 < type_token_ratio ws := by
  unfold type_token_ratio
  rw [if_neg h]
  apply div_pos ?_ (qlength_pos h)
  have : 0 < ws.dedup.length := by
    cases ws with
    | nil => simp at h
    | cons a t =>
      have : a ∈ (a :: t).dedup := by simp
      exact List.length_pos.mpr (fun hn => by simp [hn] at this)
  exact_mod_cast this

lemma lexical_sophistication_nonneg (ws : List (List Char)) :
    0 ≤ lexical_sophistication ws := by
  unfold lexical_sophistication
  split
  · exact le_refl 0
  · exact div_nonneg (Nat.cast_nonneg _) (Nat.cast_nonneg _)

lemma lexical_sophistication_le_one (ws : List (List Char)) :
    lexical_sophistication ws ≤ 1 := by
  unfold lexical_sophistication
  split
  · norm_num
  · rename_i h
    refine (div_le_one (qlength_pos h)).mpr ?_
    exact_mod_cast List.countP_le_length _

lemma avg_word_length_nonneg (ws : List (List Char)) : 0 ≤ avg_word_length ws := by
  unfold avg_word_length
  split
  · exact le_refl 0
  · refine div_nonneg (List.sum_nonneg ?_) (Nat.cast_nonneg _)
    intro x hx
    obtain ⟨w, -, rfl⟩ := List.mem_map.mp hx
    exact Nat.cast_nonneg _

lemma avg_sentence_length_nonneg (ss : List (List Char)) :
    0 ≤ avg_sentence_length ss := by
  unfold avg_sentence_length
  split
  · exact le_refl 0
  · refine div_nonneg (List.sum_nonneg ?_) (Nat.cast_nonneg _)
    intro x hx
    obtain ⟨w, -, rfl⟩ := List.mem_map.mp hx
    exact Nat.cast_nonneg _

lemma coherence_score_nonneg (ss : List (List Char)) : 0 ≤ coherence_score ss := by
  unfold coherence_score
  split
  · exact le_refl 0
  · exact le_max_left 0 _

lemma coherence_score_le_one (ss : List (List Char)) : coherence_score ss ≤ 1 := by
  unfold coherence_score
  split
  · norm_num
  · refine max_le (by norm_num) ?_
    have hv : (0:ℚ) ≤ ((ss.map (fun s => ((tokenize_words s).length : ℚ))).map
        (fun l => (l - (ss.map (fun s => ((tokenize_words s).length : ℚ))).sum
          / ((ss.map (fun s => ((tokenize_words s).length : ℚ))).length : ℚ)) ^ 2)).sum := by
      refine List.sum_nonneg ?_
      intro x hx
      obtain ⟨l, -, rfl⟩ := List.mem_map.mp hx
      exact sq_nonneg _
    have hvar : (0:ℚ) ≤ ((ss.map (fun s => ((tokenize_words s).length : ℚ))).map
        (fun l => (l - (ss.map (fun s => ((tokenize_words s).length : ℚ))).sum
          / ((ss.map (fun s => ((tokenize_words s).length : ℚ))).length : ℚ)) ^ 2)).sum
        / ((ss.map (fun s => ((tokenize_words s).length : ℚ))).length : ℚ) :=
      div_nonneg hv (Nat.cast_nonneg _)
    have hq : (0:ℚ) ≤ (((ss.map (fun s => ((tokenize_words s).length : ℚ))).sum
          / ((ss.map (fun s => ((tokenize_words s).length : ℚ))).length : ℚ) + 1) ^ 2 : ℚ) :=
      sq_nonneg _
    have := div_nonneg hvar hq
    linarith

lemma reasoning_proxy_nonneg (ss ws : List (List Char)) :
    0 ≤ reasoning_proxy ss ws := le_max_left 0 _

lemma reasoning_proxy_le_one (ss ws : List (List Char)) :
    reasoning_proxy ss ws ≤ 1 :=
  max_le (by norm_num) (min_le_left 1 _)

/-! ### Rounding and score bounds -/

lemma round_le_round_q {a b : ℚ} (h : a ≤ b) : round a ≤ round b := by
  rw [round_eq, round_eq]
  exact Int.floor_le_floor (by linarith)

lemma round2_mono {a b : ℚ} (h : a ≤ b) : round2 a ≤ round2 b := by
  unfold round2
  have := round_le_round_q (mul_le_mul_of_nonneg_right h (by norm_num : (0:ℚ) ≤ 100))
  have hc : ((round (a * 100) : ℤ) : ℚ) ≤ ((round (b * 100) : ℤ) : ℚ) := by exact_mod_cast this
  linarith

lemma round2_nonneg {a : ℚ} (h : 0 ≤ a) : 0 ≤ round2 a := by
  have h0 : round2 0 = 0 := by
    unfold round2
    norm_num
  calc (0:ℚ) = round2 0 := h0.symm
    _ ≤ round2 a := round2_mono h

lemma round2_le_100 {a : ℚ} (h : a ≤ 100) : round2 a ≤ 100 := by
  have h100 : round2 100 = 100 := by
    unfold round2
    rw [show ((100:ℚ) * 100) = ((10000:ℕ) : ℚ) by norm_num, round_natCast]
    norm_num
  calc round2 a ≤ round2 100 := round2_mono h
    _ = 100 := h100

lemma langRaw_nonneg {f : FeatureVector} (ht : 0 ≤ f.ttr) (hl : 0 ≤ f.lex_soph)
    (ha : 0 ≤ f.avg_word_len) : 0 ≤ langRaw f := by
  unfold langRaw
  have h1 : 0 ≤ min 1 (f.ttr * (3/2)) := le_min (by norm_num) (by linarith)
  have h2 : 0 ≤ min 1 (f.lex_soph * 3) := le_min (by norm_num) (by linarith)
  have h3 : 0 ≤ min 1 (f.avg_word_len / 5) := le_min (by norm_num) (by linarith)
  linarith

lemma langRaw_le_100 (f : FeatureVector) : langRaw f ≤ 100 := by
  unfold langRaw
  have h1 : min 1 (f.ttr * (3/2)) ≤ 1 := min_le_left 1 _
  have h2 : min 1 (f.lex_soph * 3) ≤ 1 := min_le_left 1 _
  have h3 : min 1 (f.avg_word_len / 5) ≤ 1 := min_le_left 1 _
  linarith

/-- C1: for every input text, the `ScoreSet` produced by `score_paper` from
the features computed on that text has each of the language, coherence,
reasoning and composite fields in the interval from 0 to 100 (all values
are rationals, hence finite). -/
theorem score_paper_fields_in_range (text : List Char) :
    (0 ≤ (score_paper (compute_features_core text).1).language
      ∧ (score_paper (compute_features_core text).1).language ≤ 100)
    ∧ (0 ≤ (score_paper (compute_features_core text).1).coherence
      ∧ (score_paper (compute_features_core text).1).coherence ≤ 100)
    ∧ (0 ≤ (score_paper (compute_features_core text).1).reasoning
      ∧ (score_paper (compute_features_core text).1).reasoning ≤ 100)
    ∧ (0 ≤ (score_paper (compute_features_core text).1).composite
      ∧ (score_paper (compute_features_core text).1).composite ≤ 100) := by
  set f := (compute_features_core text).1 with hf
  have ht0 : 0 ≤ f.ttr := by rw [hf, cfc_ttr]; exact type_token_ratio_nonneg _
  have hl0 : 0 ≤ f.lex_soph := by rw [hf, cfc_lex_soph]; exact lexical_sophistication_nonneg _
  have ha0 : 0 ≤ f.avg_word_len := by rw [hf, cfc_avg_word_len]; exact avg_word_length_nonneg _
  have hc0 : 0 ≤ f.coherence := by rw [hf, cfc_coherence]; exact coherence_score_nonneg _
  have hc1 : f.coherence ≤ 1 := by rw [hf, cfc_coherence]; exact coherence_score_le_one _
  have hr0 : 0 ≤ f.reasoning_proxy := by rw [hf, cfc_reasoning]; exact reasoning_proxy_nonneg _ _
  have hr1 : f.reasoning_proxy ≤ 1 := by rw [hf, cfc_reasoning]; exact reasoning_proxy_le_one _ _
  have hL0 : 0 ≤ langRaw f := langRaw_nonneg ht0 hl0 ha0
  have hL1 : langRaw f ≤ 100 := langRaw_le_100 f
  have hC0 : 0 ≤ cohRaw f := by unfold cohRaw; linarith
  have hC1 : cohRaw f ≤ 100 := by unfold cohRaw; linarith
  have hR0 : 0 ≤ reasonRaw f := by unfold reasonRaw; linarith
  have hR1 : reasonRaw f ≤ 100 := by unfold reasonRaw; linarith
  refine ⟨⟨round2_nonneg hL0, round2_le_100 hL1⟩,
    ⟨round2_nonneg hC0, round2_le_100 hC1⟩,
    ⟨round2_nonneg hR0, round2_le_100 hR1⟩,
    ⟨round2_nonneg (by linarith), round2_le_100 (by linarith)⟩⟩

/-- C3: for every input text, the ratio-valued feature fields `ttr`,
`lex_soph`, `coherence` and `reasoning_proxy` lie in the unit interval, and
the word and sentence counts are non-negative integers. -/
theorem feature_vector_invariants (text : List Char) :
    (0 ≤ (compute_features_core text).1.ttr ∧ (compute_features_core text).1.ttr ≤ 1)
    ∧ (0 ≤ (compute_features_core text).1.lex_soph
      ∧ (compute_features_core text).1.lex_soph ≤ 1)
    ∧ (0 ≤ (compute_features_core text).1.coherence
      ∧ (compute_features_core text).1.coherence ≤ 1)
    ∧ (0 ≤ (compute_features_core text).1.reasoning_proxy
      ∧ (compute_features_core text).1.reasoning_proxy ≤ 1)
    ∧ 0 ≤ (compute_features_core text).1.word_count
    ∧ 0 ≤ (compute_features_core text).1.sentence_count := by
  refine ⟨⟨?_, ?_⟩, ⟨?_, ?_⟩, ⟨?_, ?_⟩, ⟨?_, ?_⟩, Nat.zero_le _, Nat.zero_le _⟩
  · rw [cfc_ttr]; exact type_token_ratio_nonneg _
  · rw [cfc_ttr]; exact type_token_ratio_le_one _
  · rw [cfc_lex_soph]; exact lexical_sophistication_nonneg _
  · rw [cfc_lex_soph]; exact lexical_sophistication_le_one _
  · rw [cfc_coherence]; exact coherence_score_nonneg _
  · rw [cfc_coherence]; exact coherence_score_le_one _
  · rw [cfc_reasoning]; exact reasoning_proxy_nonneg _ _
  · rw [cfc_reasoning]; exact reasoning_proxy_le_one _ _

/-! ### Blank input -/

lemma pstrip_eq_nil_forall {l : List Char} (h : pstrip l = []) :
    ∀ c ∈ l, isSpace c = true := by
  unfold pstrip at h
  have h1 : (l.dropWhile isSpace).reverse.dropWhile isSpace = [] :=
    List.reverse_eq_nil_iff.mp h
  have h2 := List.dropWhile_eq_nil_iff.mp h1
  intro c hc
  rw [← List.takeWhile_append_dropWhile isSpace l] at hc
  rcases List.mem_append.mp hc with h3 | h3
  · exact List.mem_takeWhile_imp h3
  · exact h2 c (List.mem_reverse.mpr h3)

lemma tokensGo_eq_nil {l : List Char} (h : ∀ c ∈ l, isTokChar c = false) :
    tokensGo l [] = [] := by
  induction l with
  | nil => rfl
  | cons c rest ih =>
    have hc := h c (by simp)
    simp only [tokensGo, hc, Bool.false_eq_true, if_false]
    rw [ih (fun x hx => h x (by simp [hx]))]
    rfl

lemma space_not_tok {c : Char} (h : isSpace c = true) :
    isTokChar (Char.toLower c) = false := by
  simp only [isSpace, Bool.or_eq_true, decide_eq_true_eq] at h
  rcases h with ((((h | h) | h) | h) | h) | h <;> subst h <;> decide

lemma tokenize_words_of_blank {l : List Char} (h : ∀ c ∈ l, isSpace c = true) :
    tokenize_words l = [] := by
  unfold tokenize_words
  apply tokensGo_eq_nil
  intro c hc
  obtain ⟨d, hd, rfl⟩ := List.mem_map.mp hc
  exact space_not_tok (h d hd)

lemma sentence_split_of_blank {text : List Char} (h : pstrip text = []) :
    sentence_split text = [] := by
  unfold sentence_split
  rw [h]
  rfl

unseal Rat.add Rat.mul Rat.inv Rat.sub in
lemma cfc_of_blank {text : List Char} (h : pstrip text = []) :
    (compute_features_core text).1 = ⟨0, 0, 0, 0, 0, 0, 0, 1/2⟩ := by
  have hs := sentence_split_of_blank h
  have hw := tokenize_words_of_blank (pstrip_eq_nil_forall h)
  have hall : compute_features_core text
      = (⟨0, 0, 0, 0, 0, 0, 0, 1/2⟩, [], []) := by
    unfold compute_features_core
    rw [hs, hw]
    decide
  rw [hall]

unseal Rat.add Rat.mul Rat.inv Rat.sub in
/-- C2 counterexample: on the empty input, the computed `reasoning_proxy` is
one half (not 0) and the composite score is 15 (not 0), so the claim that
blank input yields all ratio fields 0 and composite 0 fails on the code. -/
theorem blank_input_claim_fails :
    (compute_features_core ("".toList)).1.reasoning_proxy ≠ 0
    ∧ (score_paper (compute_features_core ("".toList)).1).composite ≠ 0
    ∧ (compute_features_core ("".toList)).1.reasoning_proxy = 1/2
    ∧ (score_paper (compute_features_core ("".toList)).1).composite = 15 := by
  refine ⟨?_, ?_, ?_, ?_⟩ <;> decide

unseal Rat.add Rat.mul Rat.inv Rat.sub in
/-- C2 (amended): every input that is empty or whitespace-only after
trimming yields `word_count = 0`, `sentence_count = 0`, `ttr = 0`,
`lex_soph = 0` and `coherence = 0`, while `reasoning_proxy = 1/2` and the
composite score is 15 (the `reasoning_proxy` formula is centred at one half
and no clause maps blank input to 0). -/
theorem blank_input_features (text : List Char) (h : pstrip text = []) :
    (compute_features_core text).1.word_count = 0
    ∧ (compute_features_core text).1.sentence_count = 0
    ∧ (compute_features_core text).1.ttr = 0
    ∧ (compute_features_core text).1.lex_soph = 0
    ∧ (compute_features_core text).1.coherence = 0
    ∧ (compute_features_core text).1.reasoning_proxy = 1/2
    ∧ (score_paper (compute_features_core text).1).composite = 15 := by
  rw [cfc_of_blank h]
  refine ⟨?_, ?_, ?_, ?_, ?_, ?_, ?_⟩ <;> decide

unseal Rat.add Rat.mul Rat.inv Rat.sub in
/-- C2 witness: the amended statement at the concrete one-space input. -/
theorem blank_input_features_witness :
    pstrip (" ".toList) = []
    ∧ ((compute_features_core (" ".toList)).1.word_count = 0
      ∧ (compute_features_core (" ".toList)).1.sentence_count = 0
      ∧ (compute_features_core (" ".toList)).1.ttr = 0
      ∧ (compute_features_core (" ".toList)).1.lex_soph = 0
      ∧ (compute_features_core (" ".toList)).1.coherence = 0
      ∧ (compute_features_core (" ".toList)).1.reasoning_proxy = 1/2
      ∧ (score_paper (compute_features_core (" ".toList)).1).composite = 15) :=
  ⟨by decide, blank_input_features (" ".toList) (by decide)⟩

unseal Rat.add Rat.mul Rat.inv Rat.sub in
/-- C7: the text with the causal marker Therefore scores a strictly greater
`reasoning_proxy` than the same text with that word removed. -/
theorem causal_marker_raises_reasoning :
    (compute_features_core
        ("The result failed. The hypothesis is rejected.".toList)).1.reasoning_proxy
      < (compute_features_core
        ("The result failed. Therefore the hypothesis is rejected.".toList)).1.reasoning_proxy := by
  decide

/-! ### Edges of returned sentences -/

lemma dropWhile_head_not {p : Char → Bool} {l : List Char} {c : Char}
    (h : (l.dropWhile p).head? = some c) : p c = false := by
  induction l with
  | nil => simp at h
  | cons d rest ih =>
    by_cases hd : p d
    · rw [List.dropWhile_cons_of_pos hd] at h
      exact ih h
    · rw [List.dropWhile_cons_of_neg hd] at h
      simp at h
      rw [← h]
      simpa using hd

lemma getLast?_dropWhile {p : Char → Bool} {l : List Char}
    (h : l.dropWhile p ≠ []) : (l.dropWhile p).getLast? = l.getLast? := by
  induction l with
  | nil => simp at h
  | cons d rest ih =>
    by_cases hd : p d
    · rw [List.dropWhile_cons_of_pos hd] at h ⊢
      rw [ih h]
      cases rest with
      | nil => simp [List.dropWhile_nil] at h
      | cons e rest2 => rw [List.getLast?_cons_cons]
    · rw [List.dropWhile_cons_of_neg hd]

lemma pstrip_head_not_space {l : List Char} {c : Char}
    (h : (pstrip l).head? = some c) : isSpace c = false := by
  unfold pstrip at h
  rw [List.head?_reverse] at h
  have hne : (l.dropWhile isSpace).reverse.dropWhile isSpace ≠ [] := by
    intro hnil
    rw [hnil] at h
    simp at h
  rw [getLast?_dropWhile hne, List.getLast?_reverse] at h
  exact dropWhile_head_not h

lemma pstrip_last_not_space {l : List Char} {c : Char}
    (h : (pstrip l).getLast? = some c) : isSpace c = false := by
  unfold pstrip at h
  rw [List.getLast?_reverse] at h
  exact dropWhile_head_not h

/-- C4 (amended): every sentence returned by the Segmenter has no leading
and no trailing whitespace; however, a candidate is dropped only when its
original text trims to the empty string, before backslash-n collapsing, so
a candidate that becomes empty only after collapsing is kept as an empty
sentence. -/
theorem sentence_split_edges_trimmed (text s : List Char)
    (h : s ∈ sentence_split text) :
    (s.head?.all fun c => !isSpace c) = true
    ∧ (s.getLast?.all fun c => !isSpace c) = true := by
  unfold sentence_split at h
  obtain ⟨a, -, rfl⟩ := List.mem_map.mp h
  constructor
  · cases hh : (pstrip (replBN a)).head? with
    | none => rfl
    | some c => simp [hh, pstrip_head_not_space hh]
  · cases hh : (pstrip (replBN a)).getLast? with
    | none => rfl
    | some c => simp [hh, pstrip_last_not_space hh]

/-- C4 witness: the amended statement at a concrete input and sentence. -/
theorem sentence_split_edges_trimmed_witness :
    ("ab.".toList ∈ sentence_split ("ab. cd.".toList))
    ∧ (("ab.".toList.head?.all fun c => !isSpace c) = true
      ∧ ("ab.".toList.getLast?.all fun c => !isSpace c) = true) :=
  ⟨by decide, sentence_split_edges_trimmed ("ab. cd.".toList) ("ab.".toList) (by decide)⟩

/-- C4 counterexample: on the input consisting of the characters a, dot,
space, backslash, n, the second candidate trims nonempty before collapsing,
so it is kept, and collapsing then trimming turns it into the empty
sentence: the output contains an empty string, refuting the claim that
every returned sentence is non-empty. -/
theorem sentence_split_keeps_collapsed_empty :
    sentence_split ("a. \\n".toList) = ["a.".toList, []]
    ∧ [] ∈ sentence_split ("a. \\n".toList) := by
  constructor <;> decide

/-- C5 (amended): no sentence returned by the Segmenter begins or ends with
a newline character; a newline that is not immediately preceded by
sentence-ending punctuation may remain embedded in the interior of a
sentence. -/
theorem sentence_split_no_edge_newline (text s : List Char)
    (h : s ∈ sentence_split text) :
    s.head? ≠ some '\n' ∧ s.getLast? ≠ some '\n' := by
  unfold sentence_split at h
  obtain ⟨a, -, rfl⟩ := List.mem_map.mp h
  constructor
  · intro hh
    have := pstrip_head_not_space hh
    simp [isSpace] at this
  · intro hh
    have := pstrip_last_not_space hh
    simp [isSpace] at this

/-- C5 witness: the amended statement at a concrete input and sentence. -/
theorem sentence_split_no_edge_newline_witness :
    ("x".toList ∈ sentence_split ("a\nb. x".toList))
    ∧ ("x".toList.head? ≠ some '\n' ∧ "x".toList.getLast? ≠ some '\n') :=
  ⟨by decide, sentence_split_no_edge_newline ("a\nb. x".toList) ("x".toList) (by decide)⟩

/-- C5 counterexample: a newline not preceded by sentence-ending punctuation
is no boundary, so it survives inside the returned sentence: the first
sentence of this input contains an embedded newline, refuting the claim. -/
theorem sentence_split_embedded_newline :
    sentence_split ("a\nb. x".toList) = ["a\nb.".toList, "x".toList]
    ∧ '\n' ∈ "a\nb.".toList := by
  constructor <;> decide

/-! ### Penalty bounds -/

lemma dedup_pos_of_ne_nil {ws : List (List Char)} (h : ¬ws.isEmpty = true) :
    0 < (ws.dedup.length : ℚ) := by
  cases ws with
  | nil => simp at h
  | cons a t =>
    have ha : a ∈ (a :: t).dedup := by simp
    have : 0 < (a :: t).dedup.length :=
      List.length_pos.mpr (fun hn => by simp [hn] at ha)
    exact_mod_cast this

lemma contribPenalty_bounds (f : FeatureVector) (s : List Char) :
    0 ≤ contribPenalty f s ∧ contribPenalty f s ≤ 27/10
    ∧ ((tokenize_words s).isEmpty = true → contribPenalty f s = 0)
    ∧ (¬(tokenize_words s).isEmpty = true → contribPenalty f s < 27/10) := by
  unfold contribPenalty
  by_cases h : (tokenize_words s).isEmpty = true
  · refine ⟨?_, ?_, ?_, ?_⟩ <;> simp [h]
    all_goals norm_num
  · rw [if_neg h]
    have httr_pos : 0 < ((tokenize_words s).dedup.length : ℚ)
        / ((tokenize_words s).length : ℚ) :=
      div_pos (dedup_pos_of_ne_nil h) (qlength_pos h)
    have httr_le : ((tokenize_words s).dedup.length : ℚ)
        / ((tokenize_words s).length : ℚ) ≤ 1 := by
      refine (div_le_one (qlength_pos h)).mpr ?_
      exact_mod_cast (List.dedup_sublist (tokenize_words s)).length_le
    constructor
    · split_ifs <;> simp [h] <;> linarith
    constructor
    · split_ifs <;> simp [h] <;> linarith
    constructor
    · intro hc
      exact absurd hc h
    · intro _
      split_ifs <;> simp [h] <;> linarith

/-- C10: every penalty produced by `sentence_contributions` lies between 0
and 2.7; a sentence with no word tokens is assigned exactly 0, and a
sentence with at least one word token is assigned strictly less than 2.7,
since its local type-token ratio is strictly positive. -/
theorem sentence_contributions_penalty_bounds (sentences : List (List Char))
    (f : FeatureVector) (p : (List Char) × ℚ)
    (h : p ∈ sentence_contributions sentences f) :
    0 ≤ p.2 ∧ p.2 ≤ 27/10
    ∧ ((tokenize_words p.1).isEmpty = true → p.2 = 0)
    ∧ (¬(tokenize_words p.1).isEmpty = true → p.2 < 27/10) := by
  have hmem : p ∈ sentences.map (fun s => (s, contribPenalty f s)) :=
    (List.mergeSort_perm _ _).mem_iff.mp h
  obtain ⟨s, -, rfl⟩ := List.mem_map.mp hmem
  exact contribPenalty_bounds f s

unseal List.merge List.mergeSort Rat.add Rat.mul Rat.inv Rat.sub in
/-- C10 witness: the bounds at a concrete sentence list and feature
vector; the sentence has two word tokens and local type-token ratio one
half, giving penalty 1. -/
theorem sentence_contributions_penalty_bounds_witness :
    (("ab ab.".toList, (1:ℚ))
        ∈ sentence_contributions ["ab ab.".toList] ⟨0, 0, 0, 0, 0, 0, 0, 0⟩)
    ∧ (0 ≤ (1:ℚ) ∧ (1:ℚ) ≤ 27/10
      ∧ ((tokenize_words "ab ab.".toList).isEmpty = true → (1:ℚ) = 0)
      ∧ (¬(tokenize_words "ab ab.".toList).isEmpty = true → (1:ℚ) < 27/10)) :=
  ⟨by decide, sentence_contributions_penalty_bounds ["ab ab.".toList]
    ⟨0, 0, 0, 0, 0, 0, 0, 0⟩ ("ab ab.".toList, (1:ℚ)) (by decide)⟩

/-! ### Ranking: sortedness, stability, truncation -/

lemma penaltyLE_trans (a b c : (List Char) × ℚ) (h1 : penaltyLE a b = true)
    (h2 : penaltyLE b c = true) : penaltyLE a c = true := by
  simp only [penaltyLE, decide_eq_true_eq] at h1 h2 ⊢
  exact le_trans h2 h1

lemma penaltyLE_total (a b : (List Char) × ℚ) :
    (penaltyLE a b || penaltyLE b a) = true := by
  simp only [penaltyLE, Bool.or_eq_true, decide_eq_true_eq]
  exact le_total b.2 a.2

lemma sentence_contributions_sorted (ss : List (List Char)) (f : FeatureVector) :
    List.Pairwise (fun a b : (List Char) × ℚ => b.2 ≤ a.2)
      (sentence_contributions ss f) := by
  have h := List.sorted_mergeSort penaltyLE_trans penaltyLE_total
    (ss.map (fun s => (s, contribPenalty f s)))
  exact h.imp (fun hab => by simpa [penaltyLE, decide_eq_true_eq] using hab)

lemma sentence_contributions_stable (ss : List (List Char)) (f : FeatureVector)
    (q : ℚ) :
    (sentence_contributions ss f).filter (fun x => decide (x.2 = q))
      = (ss.map (fun s => (s, contribPenalty f s))).filter
          (fun x => decide (x.2 = q)) := by
  set pre := ss.map (fun s => (s, contribPenalty f s)) with hpre
  set c := pre.filter (fun x => decide (x.2 = q)) with hc
  have hc_pair : c.Pairwise (fun a b => penaltyLE a b = true) := by
    refine List.pairwise_of_forall_mem_list ?_
    intro a ha b hb
    have ha2 := (List.mem_filter.mp ha).2
    have hb2 := (List.mem_filter.mp hb).2
    simp only [decide_eq_true_eq] at ha2 hb2
    simp only [penaltyLE, decide_eq_true_eq]
    rw [ha2, hb2]
  have h1 : c.Sublist (sentence_contributions ss f) :=
    List.sublist_mergeSort penaltyLE_trans penaltyLE_total hc_pair
      (List.filter_sublist pre)
  have hcf : c.filter (fun x => decide (x.2 = q)) = c :=
    List.filter_eq_self.mpr (fun a ha => (List.mem_filter.mp ha).2)
  have h2 : c.Sublist ((sentence_contributions ss f).filter
      (fun x => decide (x.2 = q))) := by
    have := List.Sublist.filter (fun x : (List Char) × ℚ => decide (x.2 = q)) h1
    rwa [hcf] at this
  have h3 : ((sentence_contributions ss f).filter
      (fun x => decide (x.2 = q))).Perm c :=
    (List.mergeSort_perm pre penaltyLE).filter _
  exact (h2.eq_of_length h3.length_eq.symm).symm

lemma sentence_contributions_length (ss : List (List Char)) (f : FeatureVector) :
    (sentence_contributions ss f).length = ss.length := by
  unfold sentence_contributions
  rw [(List.mergeSort_perm _ _).length_eq, List.length_map]

lemma analyze_ok_top_flagged {oracle : List Char → Option (ℚ × ℚ)}
    {text : List Char} {r : AnalyzeResponse}
    (hok : analyze oracle text = Except.ok r) :
    r.top_flagged_sentences
      = ((sentence_contributions (sentence_split text)
          (compute_features_core text).1).take 5).map Prod.fst
    ∧ r.top_flagged_sentences.length = min 5 (sentence_split text).length := by
  unfold analyze at hok
  by_cases hlen : (pstrip text).length < 20
  · rw [if_pos hlen] at hok
    exact absurd hok (by simp)
  · rw [if_neg hlen] at hok
    cases hcf : compute_features oracle text with
    | none => rw [hcf] at hok; simp at hok
    | some out =>
      rw [hcf] at hok
      unfold compute_features at hcf
      cases horacle : oracle text with
      | none => rw [horacle] at hcf; simp at hcf
      | some psub =>
        rw [horacle] at hcf
        cases hsent : sentenceSentiments oracle (sentence_split text) with
        | none => rw [hsent] at hcf; simp at hcf
        | some sis =>
          rw [hsent] at hcf
          simp only [Option.some.injEq] at hcf
          rw [← hcf] at hok
          simp only [Except.ok.injEq] at hok
          rw [← hok]
          refine ⟨rfl, ?_⟩
          rw [List.length_map, List.length_take, sentence_contributions_length]

/-- C6: for every sentence sequence and feature vector the contribution list
is sorted by penalty in descending order; ties keep the original document
order (the elements of each fixed penalty appear exactly as in the unsorted
pairing, a stable sort); and a successful `analyze` response carries as its
flagged sentences exactly the first five entries of that ranking, hence
min(5, number of sentences) many. -/
theorem contributions_ranking_and_truncation (sentences : List (List Char))
    (f : FeatureVector) (q : ℚ) (oracle : List Char → Option (ℚ × ℚ))
    (text : List Char) (r : AnalyzeResponse)
    (hok : analyze oracle text = Except.ok r) :
    List.Pairwise (fun a b : (List Char) × ℚ => b.2 ≤ a.2)
      (sentence_contributions sentences f)
    ∧ (sentence_contributions sentences f).filter (fun x => decide (x.2 = q))
      = (sentences.map (fun s => (s, contribPenalty f s))).filter
          (fun x => decide (x.2 = q))
    ∧ r.top_flagged_sentences
      = ((sentence_contributions (sentence_split text)
          (compute_features_core text).1).take 5).map Prod.fst
    ∧ r.top_flagged_sentences.length = min 5 (sentence_split text).length :=
  ⟨sentence_contributions_sorted sentences f,
   sentence_contributions_stable sentences f q,
   (analyze_ok_top_flagged hok).1,
   (analyze_ok_top_flagged hok).2⟩

instance : DecidableEq (Except AnalyzeError AnalyzeResponse) := fun x y =>
  match x, y with
  | .error a, .error b =>
    if h : a = b then .isTrue (by rw [h]) else .isFalse (by simp [h])
  | .ok a, .ok b =>
    if h : a = b then .isTrue (by rw [h]) else .isFalse (by simp [h])
  | .error _, .ok _ => .isFalse (by simp)
  | .ok _, .error _ => .isFalse (by simp)

/-- A constant sentiment oracle used to instantiate witnesses. -/
def oracle0 : List Char → Option (ℚ × ℚ) := fun _ => some (0, 0)

/-- The response of `analyze` with the constant oracle on the twenty
character document of four identical words. -/
def resp0 : AnalyzeResponse :=
  ⟨64, 95/2, 100, 50,
   ⟨4, 1, 4, 4, 1/4, 0, 1, 1/2⟩, 0, 0,
   ["aaaa aaaa aaaa aaaa.".toList],
   [⟨"aaaa aaaa aaaa aaaa.".toList, 0, 0⟩]⟩

unseal List.merge List.mergeSort Rat.add Rat.mul Rat.inv Rat.sub in
/-- C6 witness: the ranking statement at concrete sentences, features,
penalty value, oracle, text and response. -/
theorem contributions_ranking_and_truncation_witness :
    analyze oracle0 ("aaaa aaaa aaaa aaaa.".toList) = Except.ok resp0
    ∧ (List.Pairwise (fun a b : (List Char) × ℚ => b.2 ≤ a.2)
        (sentence_contributions ["a b.".toList, "c c.".toList] ⟨0, 0, 0, 0, 0, 0, 0, 0⟩)
      ∧ (sentence_contributions ["a b.".toList, "c c.".toList]
            ⟨0, 0, 0, 0, 0, 0, 0, 0⟩).filter (fun x => decide (x.2 = 1/2))
        = (["a b.".toList, "c c.".toList].map
            (fun s => (s, contribPenalty ⟨0, 0, 0, 0, 0, 0, 0, 0⟩ s))).filter
            (fun x => decide (x.2 = 1/2))
      ∧ resp0.top_flagged_sentences
        = ((sentence_contributions
            (sentence_split ("aaaa aaaa aaaa aaaa.".toList))
            (compute_features_core ("aaaa aaaa aaaa aaaa.".toList)).1).take 5).map
            Prod.fst
      ∧ resp0.top_flagged_sentences.length
        = min 5 (sentence_split ("aaaa aaaa aaaa aaaa.".toList)).length) :=
  ⟨by decide,
   contributions_ranking_and_truncation ["a b.".toList, "c c.".toList]
     ⟨0, 0, 0, 0, 0, 0, 0, 0⟩ (1/2) oracle0 ("aaaa aaaa aaaa aaaa.".toList) resp0
     (by decide)⟩

/-! ### Monotonicity of the language score in average word length -/

lemma sum_lens_le {ws ws2 : List (List Char)}
    (h : List.Forall₂ (fun w w2 => w.length ≤ w2.length) ws ws2) :
    (ws.map (fun w => (w.length : ℚ))).sum ≤ (ws2.map (fun w => (w.length : ℚ))).sum := by
  induction h with
  | nil => simp
  | @cons a b l l2 hab htail ih =>
    simp only [List.map_cons, List.sum_cons]
    have hab' : (a.length : ℚ) ≤ (b.length : ℚ) := by exact_mod_cast hab
    linarith

lemma sum_lens_lt {ws ws2 : List (List Char)}
    (h : List.Forall₂ (fun w w2 => w.length ≤ w2.length) ws ws2)
    (hs : ∃ p ∈ ws.zip ws2, p.1.length < p.2.length) :
    (ws.map (fun w => (w.length : ℚ))).sum < (ws2.map (fun w => (w.length : ℚ))).sum := by
  induction h with
  | nil => simp at hs
  | @cons a b l l2 hab htail ih =>
    obtain ⟨p, hp, hlt⟩ := hs
    simp only [List.map_cons, List.sum_cons]
    rcases List.mem_cons.mp (by simpa using hp) with hpe | hpt
    · have hab' : (a.length : ℚ) < (b.length : ℚ) := by
        rw [hpe] at hlt
        exact_mod_cast hlt
      have := sum_lens_le htail
      linarith
    · have hab' : (a.length : ℚ) ≤ (b.length : ℚ) := by exact_mod_cast hab
      have := ih ⟨p, hpt, hlt⟩
      linarith

/-- C8: replacing words by pointwise no-shorter words of the same count,
with at least one strictly longer, strictly increases `avg_word_length`;
and the language sub-score is monotone non-decreasing in `avg_word_len`
when `ttr` and `lex_soph` are held fixed. -/
theorem language_monotone_in_word_length (ws ws2 : List (List Char))
    (f f2 : FeatureVector)
    (hlen : List.Forall₂ (fun w w2 => w.length ≤ w2.length) ws ws2)
    (hstrict : ∃ p ∈ ws.zip ws2, p.1.length < p.2.length)
    (httr : f2.ttr = f.ttr) (hlex : f2.lex_soph = f.lex_soph)
    (hf : f.avg_word_len = avg_word_length ws)
    (hf2 : f2.avg_word_len = avg_word_length ws2) :
    avg_word_length ws < avg_word_length ws2
    ∧ (score_paper f).language ≤ (score_paper f2).language := by
  have hne : ¬ws.isEmpty = true := by
    obtain ⟨p, hp, -⟩ := hstrict
    cases ws with
    | nil => simp at hp
    | cons a t => simp
  have hlens := hlen.length_eq
  have hne2 : ¬ws2.isEmpty = true := by
    cases ws2 with
    | nil =>
      cases ws with
      | nil => simp at hne
      | cons a t => simp at hlens
    | cons a t => simp
  have havg : avg_word_length ws < avg_word_length ws2 := by
    unfold avg_word_length
    rw [if_neg hne, if_neg hne2, ← hlens]
    have hpos := qlength_pos hne
    rw [div_lt_div_iff_of_pos_right hpos]
    exact sum_lens_lt hlen hstrict
  refine ⟨havg, ?_⟩
  show round2 (langRaw f) ≤ round2 (langRaw f2)
  apply round2_mono
  unfold langRaw
  rw [httr, hlex]
  have hle : f.avg_word_len ≤ f2.avg_word_len := by
    rw [hf, hf2]
    exact le_of_lt havg
  have hmin : min 1 (f.avg_word_len / 5) ≤ min 1 (f2.avg_word_len / 5) :=
    min_le_min (le_refl 1) (by linarith)
  linarith

/-- C8 witness: the statement at a concrete one-word replacement. -/
theorem language_monotone_in_word_length_witness :
    List.Forall₂ (fun w w2 : List Char => w.length ≤ w2.length)
      ["ab".toList] ["abc".toList]
    ∧ (∃ p ∈ (["ab".toList] : List (List Char)).zip ["abc".toList],
        p.1.length < p.2.length)
    ∧ (avg_word_length ["ab".toList] < avg_word_length ["abc".toList]
      ∧ (score_paper ⟨0, 0, 0, 2, 0, 0, 0, 0⟩).language
        ≤ (score_paper ⟨0, 0, 0, 3, 0, 0, 0, 0⟩).language) :=
  ⟨by simp, ⟨("ab".toList, "abc".toList), by simp, by simp⟩,
   language_monotone_in_word_length ["ab".toList] ["abc".toList]
     ⟨0, 0, 0, 2, 0, 0, 0, 0⟩ ⟨0, 0, 0, 3, 0, 0, 0, 0⟩
     (by simp) ⟨("ab".toList, "abc".toList), by simp, by simp⟩
     rfl rfl (by norm_num [avg_word_length]) (by norm_num [avg_word_length])⟩

/-! ### Sentiment failure handling -/

lemma sentenceSentiments_none {oracle : List Char → Option (ℚ × ℚ)}
    {ss : List (List Char)}
    (h : ss.any (fun s => (oracle s).isNone) = true) :
    sentenceSentiments oracle ss = none := by
  induction ss with
  | nil => simp at h
  | cons s rest ih =>
    cases horacle : oracle s with
    | none => simp [sentenceSentiments, horacle]
    | some pq =>
      simp only [List.any_cons, horacle, Option.isNone_some, Bool.false_or] at h
      simp [sentenceSentiments, horacle, ih h]

lemma sentenceSentiments_some {oracle : List Char → Option (ℚ × ℚ)}
    {ss : List (List Char)} {sis : List SentimentInfo}
    (h : sentenceSentiments oracle ss = some sis) :
    sis.all (fun si =>
      decide (oracle si.text = some (si.polarity, si.subjectivity))) = true := by
  induction ss generalizing sis with
  | nil =>
    simp only [sentenceSentiments, Option.some.injEq] at h
    simp [← h]
  | cons s rest ih =>
    unfold sentenceSentiments at h
    cases horacle : oracle s with
    | none => rw [horacle] at h; simp at h
    | some pq =>
      rw [horacle] at h
      cases hrec : sentenceSentiments oracle rest with
      | none => rw [hrec] at h; simp at h
      | some sis2 =>
        rw [hrec] at h
        simp only [Option.some.injEq] at h
        rw [← h]
        simp only [List.all_cons, ih hrec, Bool.and_true]
        simp [horacle]

lemma sentimentCalls_take (oracle : List Char → Option (ℚ × ℚ))
    (ss : List (List Char)) :
    sentimentCalls oracle ss = ss.take (sentimentCalls oracle ss).length := by
  induction ss with
  | nil => rfl
  | cons s rest ih =>
    unfold sentimentCalls
    cases horacle : (oracle s).isSome with
    | false => simp
    | true => simp [ih.symm, List.take_succ_cons, ← ih]

lemma sentimentCalls_all_some {oracle : List Char → Option (ℚ × ℚ)}
    {ss : List (List Char)}
    (h : ss.all (fun s => (oracle s).isSome) = true) :
    sentimentCalls oracle ss = ss := by
  induction ss with
  | nil => rfl
  | cons s rest ih =>
    simp only [List.all_cons, Bool.and_eq_true] at h
    unfold sentimentCalls
    rw [h.1, if_pos rfl, ih h.2]

/-- C9: with the sentiment capability modelled as an oracle that may fail
(the TextBlob calls of lines 71 and 78 carry no handler, so a failure
propagates out of the request as an error distinct from the explicit
too-short rejection), a failure on the document span or on any sentence
span makes `analyze` fail with the sentiment-unavailable error; a normal
response carries exactly the oracle values, never substituted zeros; and
the spans handed to the oracle form a prefix of the document followed by
the sentences in order, so no span is retried. -/
theorem sentiment_failure_is_hard_error (oracle : List Char → Option (ℚ × ℚ))
    (text : List Char) (r : AnalyzeResponse)
    (h20 : ¬(pstrip text).length < 20) :
    (((oracle text).isNone
        || (sentence_split text).any (fun s => (oracle s).isNone)) = true →
      analyze oracle text = Except.error AnalyzeError.sentimentUnavailable)
    ∧ (analyze oracle text = Except.ok r →
        oracle text = some (r.sentiment_polarity, r.sentiment_subjectivity)
        ∧ r.sentiment_analysis.all (fun si =>
            decide (oracle si.text = some (si.polarity, si.subjectivity))) = true)
    ∧ analyzeCalls oracle text
        = (text :: sentence_split text).take (analyzeCalls oracle text).length
    ∧ (((oracle text).isSome
        && (sentence_split text).all (fun s => (oracle s).isSome)) = true →
      analyzeCalls oracle text = text :: sentence_split text) := by
  refine ⟨?_, ?_, ?_, ?_⟩
  · intro hfail
    unfold analyze
    rw [if_neg h20]
    have hnone : compute_features oracle text = none := by
      unfold compute_features
      cases horacle : oracle text with
      | none => rfl
      | some psub =>
        simp only [horacle, Option.isNone_some, Bool.false_or] at hfail
        rw [sentenceSentiments_none hfail]
    rw [hnone]
  · intro hok
    unfold analyze at hok
    rw [if_neg h20] at hok
    cases hcf : compute_features oracle text with
    | none => rw [hcf] at hok; simp at hok
    | some out =>
      rw [hcf] at hok
      unfold compute_features at hcf
      cases horacle : oracle text with
      | none => rw [horacle] at hcf; simp at hcf
      | some psub =>
        rw [horacle] at hcf
        cases hsent : sentenceSentiments oracle (sentence_split text) with
        | none => rw [hsent] at hcf; simp at hcf
        | some sis =>
          rw [hsent] at hcf
          simp only [Option.some.injEq] at hcf
          rw [← hcf] at hok
          simp only [Except.ok.injEq] at hok
          rw [← hok]
          exact ⟨rfl, sentenceSentiments_some hsent⟩
  · unfold analyzeCalls
    rw [if_neg h20]
    cases horacle : (oracle text).isSome with
    | false => simp
    | true =>
      rw [if_pos rfl]
      simp only [List.length_cons, List.take_succ_cons, List.cons.injEq, true_and]
      exact sentimentCalls_take oracle (sentence_split text)
  · intro hall
    simp only [Bool.and_eq_true] at hall
    unfold analyzeCalls
    rw [if_neg h20, hall.1, if_pos rfl, sentimentCalls_all_some hall.2]

unseal Rat.add Rat.mul Rat.inv Rat.sub in
/-- C9 witness: the statement at the constant oracle and a concrete
document of twenty characters. -/
theorem sentiment_failure_is_hard_error_witness :
    ¬(pstrip ("aaaa aaaa aaaa aaaa.".toList)).length < 20
    ∧ ((((oracle0 ("aaaa aaaa aaaa aaaa.".toList)).isNone
        || (sentence_split ("aaaa aaaa aaaa aaaa.".toList)).any
            (fun s => (oracle0 s).isNone)) = true →
        analyze oracle0 ("aaaa aaaa aaaa aaaa.".toList)
          = Except.error AnalyzeError.sentimentUnavailable)
      ∧ (analyze oracle0 ("aaaa aaaa aaaa aaaa.".toList) = Except.ok resp0 →
          oracle0 ("aaaa aaaa aaaa aaaa.".toList)
            = some (resp0.sentiment_polarity, resp0.sentiment_subjectivity)
          ∧ resp0.sentiment_analysis.all (fun si =>
              decide (oracle0 si.text = some (si.polarity, si.subjectivity))) = true)
      ∧ analyzeCalls oracle0 ("aaaa aaaa aaaa aaaa.".toList)
          = (("aaaa aaaa aaaa aaaa.".toList)
              :: sentence_split ("aaaa aaaa aaaa aaaa.".toList)).take
              (analyzeCalls oracle0 ("aaaa aaaa aaaa aaaa.".toList)).length
      ∧ (((oracle0 ("aaaa aaaa aaaa aaaa.".toList)).isSome
          && (sentence_split ("aaaa aaaa aaaa aaaa.".toList)).all
              (fun s => (oracle0 s).isSome)) = true →
        analyzeCalls oracle0 ("aaaa aaaa aaaa aaaa.".toList)
          = ("aaaa aaaa aaaa aaaa.".toList)
            :: sentence_split ("aaaa aaaa aaaa aaaa.".toList))) :=
  ⟨by decide, sentiment_failure_is_hard_error oracle0
    ("aaaa aaaa aaaa aaaa.".toList) resp0 (by decide)⟩

end PaperIQ
